import Mathlib

/-!
Verification of the SSD-backed embedding cache coordination layer
(`fbgemm_gpu/src/ssd_split_embeddings_cache/ssd_split_table_batched_embeddings.cpp`).

The C++ translation unit in scope declares and registers four operators —
`masked_index_put`, `masked_index_select`, `ssd_cache_populate_actions`,
`ssd_generate_row_addrs` — and the `EmbeddingRocksDBWrapper` storage class.
The CUDA kernel bodies and the RocksDB implementation live outside the file,
so the behavioural definitions below are modelled from the specification and
from the operator doc comments of the translation unit; the registered
signatures, the wrapper method set, and the documented equivalent semantics
are embedded directly from the source.

Tensors of row data are modelled as `List (List Int)` (a list of rows);
index tensors as `List Int`; scalar count tensors as `Nat`.  Out-of-range
accesses use `List.getD` / `List.set` (reads default, writes out of range are
dropped), making every definition executable.
-/

/-- Modelled from the spec: one step of the `masked_index_put` kernel loop
(the CUDA body of `masked_index_put_cuda` is not part of the translation
unit; the model follows its documented equivalent semantics: positions `i`
of `indices` with `indices[i] >= 0` scatter row `values[i]` into
`self[indices[i]]`, negative positions are skipped).  `i` is the current
position, the second `Nat` argument is the number of positions left. -/
def maskedPutLoop (indices : List Int) (values : List (List Int)) :
    Nat → Nat → List (List Int) → List (List Int)
  | _, 0, self => self
  | i, Nat.succ k, self =>
    let idx := indices.getD i (-1)
    maskedPutLoop indices values (i + 1) k
      (if 0 ≤ idx then self.set idx.toNat (values.getD i []) else self)

/-- Modelled from the spec: `masked_index_put(self, indices, values, count)`
processes the first `count` entries of `indices` (clamped to the available
entries) and scatters the corresponding rows of `values` into `self`,
skipping entries that are negative. -/
def masked_index_put_rows (self : List (List Int)) (indices : List Int)
    (values : List (List Int)) (count : Nat) : List (List Int) :=
  maskedPutLoop indices values 0 (min count indices.length) self

/-- Modelled from the spec: one step of the `masked_index_select` kernel loop
(the CUDA body of `masked_index_select_cuda` is not part of the translation
unit; the model follows its documented equivalent semantics: positions `i`
of `indices` with `indices[i] >= 0` gather row `values[indices[i]]` into
`self[i]`, negative positions are skipped). -/
def maskedSelectLoop (indices : List Int) (values : List (List Int)) :
    Nat → Nat → List (List Int) → List (List Int)
  | _, 0, self => self
  | i, Nat.succ k, self =>
    let idx := indices.getD i (-1)
    maskedSelectLoop indices values (i + 1) k
      (if 0 ≤ idx then self.set i (values.getD idx.toNat []) else self)

/-- Modelled from the spec: `masked_index_select(self, indices, values, count)`
processes the first `count` entries of `indices` (clamped) and gathers the
rows `values[indices[i]]` into row `i` of `self`, skipping negative
entries. -/
def masked_index_select_rows (self : List (List Int)) (indices : List Int)
    (values : List (List Int)) (count : Nat) : List (List Int) :=
  maskedSelectLoop indices values 0 (min count indices.length) self

/-- A device tensor, reduced to its shape and (for 2D tensors) its rows. -/
structure MTensor where
  dims : List Nat
  rows : List (List Int)
deriving DecidableEq

/-- Modelled from the spec: the checked `masked_index_put` operator.  Per the
operator doc comment it "only supports 2D input `values`", `self` is "the 2D
output tensor (the tensor that is indexed)" and the operator returns the
`self` tensor it mutated. -/
def masked_index_put (self : MTensor) (indices : List Int)
    (values : MTensor) (count : Nat) : Option MTensor :=
  if self.dims.length = 2 ∧ values.dims.length = 2 then
    some { dims := self.dims
           rows := masked_index_put_rows self.rows indices values.rows count }
  else none

/-- Modelled from the spec: the checked `masked_index_select` operator.  Per
the operator doc comment it "only supports 2D input `values`" (`values` is
the tensor that is indexed), `self` is "the 2D output tensor", and the
operator returns the `self` tensor it mutated. -/
def masked_index_select (self : MTensor) (indices : List Int)
    (values : MTensor) (count : Nat) : Option MTensor :=
  if self.dims.length = 2 ∧ values.dims.length = 2 then
    some { dims := self.dims
           rows := masked_index_select_rows self.rows indices values.rows count }
  else none

/-- Arguments of `ssd_generate_row_addrs`, following the registered operator
signature, extended with the base addresses, row stride, scratch-pad dense
index assignment and batch length that the kernel obtains from the tensor
metadata (the tensors themselves are modelled by their contents).  Per the
operator doc comment, `assigned_cache_slots` holds the cache slot per
*unique* index (`-1` meaning not in cache), `linear_index_inverse_indices`
holds the original position of each linear index before sorting,
`unique_indices_count_cumsum` holds the prefix sums of the counts of the
unique indices, and `cache_set_inverse_indices` holds the original (key
sorted) position of each unique index before cache-set sorting. -/
structure RowAddrsArgs where
  lxu_cache_locations : List Int
  assigned_cache_slots : List Int
  linear_index_inverse_indices : List Nat
  unique_indices_count_cumsum : List Nat
  cache_set_inverse_indices : List Nat
  cache_set_sorted_unique_indices : List Int
  unique_indices_length : Nat
  scratch_index : List Nat
  cache_base : Int
  scratch_base : Int
  row_stride : Int
  batch_length : Nat

/-- Modelled from the spec: the address produced for the `n`-th unique key
(in cache-set sorted order).  If its assigned cache slot is non-negative the
row lives in the LXU cache, otherwise it is served from the scratch pad at
its dense scratch-pad index (the scratch-pad manager's dense index
assignment is not part of the translation unit and is passed in as
`scratch_index`). -/
def rowAddrFor (a : RowAddrsArgs) (n : Nat) : Int :=
  let slot := a.assigned_cache_slots.getD n (-1)
  if 0 ≤ slot then a.cache_base + slot * a.row_stride
  else a.scratch_base + (a.scratch_index.getD n 0 : Int) * a.row_stride

/-- Modelled from the spec: write address `addr` at every output position
`inv[j]` for `j` in the segment starting at `l` of the given length (the
kernel iterates one dedup segment of sorted ranks and scatters the unique
key's address to the original lookup positions of the segment). -/
def writeSegment (inv : List Nat) (addr : Int) :
    Nat → Nat → List Int → List Int
  | _, 0, out => out
  | l, Nat.succ k, out =>
    writeSegment inv addr (l + 1) k (out.set (inv.getD l 0) addr)

/-- The start of the `n`-th unique key's dedup segment of sorted ranks:
the count prefix sum at the key-sorted position of unique key `n`. -/
def segStart (a : RowAddrsArgs) (n : Nat) : Nat :=
  a.unique_indices_count_cumsum.getD (a.cache_set_inverse_indices.getD n 0) 0

/-- The end (exclusive) of the `n`-th unique key's dedup segment. -/
def segEnd (a : RowAddrsArgs) (n : Nat) : Nat :=
  a.unique_indices_count_cumsum.getD (a.cache_set_inverse_indices.getD n 0 + 1) 0

/-- Modelled from the spec: one unique key's contribution to the address
table.  Unique key `n` (cache-set sorted order) recovers its key-sorted
position, reads its dedup segment bounds from the count prefix sums and
scatters its address over the segment. -/
def applySegment (a : RowAddrsArgs) (out : List Int) (n : Nat) : List Int :=
  writeSegment a.linear_index_inverse_indices (rowAddrFor a n)
    (segStart a n) (segEnd a n - segStart a n) out

/-- Modelled from the spec: the `ssd_generate_row_addrs` operator (the CUDA
kernel body is not part of the translation unit).  It returns the SSD row
address table — initialised to the null sentinel address `0` and filled per
unique key through the dedup maps — together with the post-backward evicted
index list: the unique keys whose assigned cache slot is negative, i.e. the
keys served from the scratch pad only. -/
def ssd_generate_row_addrs (a : RowAddrsArgs) : List Int × List Int :=
  ((List.range a.unique_indices_length).foldl (applySegment a)
      (List.replicate a.batch_length 0),
   (List.range a.unique_indices_length).filterMap (fun n =>
      if 0 ≤ a.assigned_cache_slots.getD n (-1) then none
      else some (a.cache_set_sorted_unique_indices.getD n (-1))))

/-- The cache directory snapshot consumed by the action planner: a
set-associative table of `S` sets of `W` ways, flattened so that slot
`s = set * W + way`.  `lxu_cache_state` holds the resident key per slot
(`-1` for an empty slot) and `lru_state` the last-used timestamp per slot. -/
structure CacheInput where
  S : Nat
  W : Nat
  lxu_cache_state : List Int
  lru_state : List Int

/-- Resident key of slot `s` (empty slots hold `-1`). -/
def keyAt (st : CacheInput) (s : Nat) : Int :=
  st.lxu_cache_state.getD s (-1)

/-- Last-used timestamp of slot `s`. -/
def lruAt (st : CacheInput) (s : Nat) : Int :=
  st.lru_state.getD s 0

/-- Modelled from the spec: the cache set of key `k` is `k mod S`. -/
def cacheSetOf (st : CacheInput) (k : Int) : Nat :=
  (k % (st.S : Int)).toNat

/-- Modelled from the spec: directory lookup.  Scan the ways of `k`'s set
for a slot holding `k`; return the flattened slot index of the first match,
or `-1` when `k` is not resident. -/
def lookupSlot (st : CacheInput) (k : Int) : Int :=
  match (List.range st.W).find?
      (fun w => keyAt st (cacheSetOf st k * st.W + w) == k) with
  | some w => ((cacheSetOf st k * st.W + w : Nat) : Int)
  | none => -1

/-- The sorted-unique-dedup order on batch positions: sort by key, break
ties by ascending original position (the ascending sort order the spec
names as the dedup tie-break). -/
def keyPosLE (batch : List Int) (i j : Nat) : Prop :=
  batch.getD i 0 < batch.getD j 0 ∨ (batch.getD i 0 = batch.getD j 0 ∧ i ≤ j)

instance keyPosLE.decRel (batch : List Int) : DecidableRel (keyPosLE batch) :=
  fun i j => inferInstanceAs (Decidable (_ ∨ _))

/-- Original batch positions whose key is not the sentinel `-1`. -/
def nonSentinelPos (batch : List Int) : List Nat :=
  (List.range batch.length).filter (fun i => decide (batch.getD i 0 ≠ -1))

/-- Modelled from the spec: the dedup sort.  The non-sentinel original
positions sorted by key (ascending, ties by position); entry `j` is the
original position of sorted rank `j`, i.e. `linear_index_inverse_indices`. -/
def sortedPositions (batch : List Int) : List Nat :=
  List.insertionSort (keyPosLE batch) (nonSentinelPos batch)

/-- The batch keys in dedup-sorted order. -/
def sortedKeys (batch : List Int) : List Int :=
  (sortedPositions batch).map (fun i => batch.getD i 0)

/-- Modelled from the spec: the vector `U` of unique non-sentinel keys of
the batch, in ascending order. -/
def uniqueKeys (batch : List Int) : List Int :=
  (sortedKeys batch).dedup

/-- Modelled from the spec: prefix sums of the per-unique-key occurrence
counts (`unique_indices_count_cumsum`), starting at `0` and ending with the
total number of non-sentinel lookups. -/
def countCumsum (batch : List Int) : List Nat :=
  List.scanl (· + ·) 0
    ((uniqueKeys batch).map (fun k => (sortedKeys batch).count k))

/-- Unique keys not resident in the cache (inserting misses together with
conflict misses); these are exactly the keys fetched from SSD this step. -/
def missKeys (st : CacheInput) (batch : List Int) : List Int :=
  (uniqueKeys batch).filter (fun k => decide (lookupSlot st k = -1))

/-- The misses that fall in cache set `σ`, in ascending key order. -/
def setMisses (st : CacheInput) (batch : List Int) (σ : Nat) : List Int :=
  (missKeys st batch).filter (fun k => decide (cacheSetOf st k = σ))

/-- The LRU victim order on the ways of set `σ`: smaller `last_used` first,
ties broken by the lowest way index (the spec's victim tie-break). -/
def victimLE (st : CacheInput) (σ : Nat) (w1 w2 : Nat) : Prop :=
  lruAt st (σ * st.W + w1) < lruAt st (σ * st.W + w2) ∨
  (lruAt st (σ * st.W + w1) = lruAt st (σ * st.W + w2) ∧ w1 ≤ w2)

instance victimLE.decRel (st : CacheInput) (σ : Nat) :
    DecidableRel (victimLE st σ) :=
  fun w1 w2 => inferInstanceAs (Decidable (_ ∨ _))

/-- Modelled from the spec: the unlocked ways of set `σ`: those whose
`last_used` is strictly below the lock horizon `t - p`.  Ways at or above
the horizon are locked and must not be evicted. -/
def unlockedWays (st : CacheInput) (t p : Int) (σ : Nat) : List Nat :=
  (List.range st.W).filter (fun w => decide (lruAt st (σ * st.W + w) < t - p))

/-- Modelled from the spec: the eviction victims of set `σ` for `m` misses:
the (at most `m`) unlocked ways with smallest `last_used` (ties by lowest
way index), handed out in ascending-way order. -/
def victimsFor (st : CacheInput) (t p : Int) (σ m : Nat) : List Nat :=
  List.insertionSort (· ≤ ·)
    ((List.insertionSort (victimLE st σ) (unlockedWays st t p σ)).take m)

/-- Modelled from the spec: the slot assigned to unique key `k`.  A hit
keeps its resident slot; a miss takes the victim way matching its rank
among its set's misses, and becomes a conflict miss (slot `-1`, served from
the scratch pad only) when the set has fewer unlocked ways than misses. -/
def assignedSlotOf (st : CacheInput) (batch : List Int) (t p : Int)
    (k : Int) : Int :=
  let s := lookupSlot st k
  if 0 ≤ s then s
  else
    let σ := cacheSetOf st k
    let ms := setMisses st batch σ
    let vs := victimsFor st t p σ ms.length
    let r := ms.indexOf k
    if r < vs.length then ((σ * st.W + vs.getD r 0 : Nat) : Int) else -1

/-- Modelled from the spec: `assigned_slots`, one entry per unique key. -/
def assignedSlots (st : CacheInput) (batch : List Int) (t p : Int) :
    List Int :=
  (uniqueKeys batch).map (assignedSlotOf st batch t p)

/-- Modelled from the spec: the per-original-lookup cache location vector:
the resident slot for hits, `-1` for misses and for sentinel positions. -/
def cacheLocations (st : CacheInput) (batch : List Int) : List Int :=
  batch.map (fun k => if k = -1 then -1 else lookupSlot st k)

/-- Modelled from the spec: the pre-eviction write-back pairs: for every
set, the victim slots about to be overwritten that currently hold a
non-sentinel key, as `(evicted key, slot)` pairs. -/
def evictedPairs (st : CacheInput) (batch : List Int) (t p : Int) :
    List (Int × Nat) :=
  (List.range st.S).flatMap (fun σ =>
    (victimsFor st t p σ (setMisses st batch σ).length).filterMap (fun w =>
      let s := σ * st.W + w
      if 0 ≤ keyAt st s then some (keyAt st s, s) else none))

/-- The eight output vectors of the action planner. -/
structure PlannerOutputs where
  unique_indices : List Int
  linear_index_inverse_indices : List Nat
  unique_indices_count_cumsum : List Nat
  assigned_slots : List Int
  evicted_keys : List Int
  evicted_slots : List Nat
  fetch_keys : List Int
  lxu_cache_locations : List Int

/-- Modelled from the spec: the `ssd_cache_populate_actions` planner (the
CUDA implementation is not part of the translation unit).  It deduplicates
the batch, classifies each unique key against the directory snapshot, plans
per-set evictions under the `t - p` lock horizon and returns the eight
output vectors. -/
def ssd_cache_populate_actions (st : CacheInput) (batch : List Int)
    (t p : Int) : PlannerOutputs :=
  { unique_indices := uniqueKeys batch
    linear_index_inverse_indices := sortedPositions batch
    unique_indices_count_cumsum := countCumsum batch
    assigned_slots := assignedSlots st batch t p
    evicted_keys := (evictedPairs st batch t p).map Prod.fst
    evicted_slots := (evictedPairs st batch t p).map Prod.snd
    fetch_keys := missKeys st batch
    lxu_cache_locations := cacheLocations st batch }

/-- Argument and return kinds of the registered torch operator schemas. -/
inductive TorchArgTy where
  | tensor : TorchArgTy
  | int : TorchArgTy
  | bool : TorchArgTy
  | optTensor : TorchArgTy
deriving DecidableEq

/-- A registered torch operator schema: name, argument kinds, return kinds. -/
structure TorchOpSchema where
  name : String
  args : List TorchArgTy
  rets : List TorchArgTy
deriving DecidableEq

/-- The registered schema of `ssd_cache_populate_actions` (library fragment
of the translation unit): eight tensor inputs/scalars, eight tensor
returns. -/
def ssd_cache_populate_actions_schema : TorchOpSchema :=
  { name := "ssd_cache_populate_actions"
    args := [TorchArgTy.tensor, TorchArgTy.int, TorchArgTy.tensor,
             TorchArgTy.int, TorchArgTy.int, TorchArgTy.tensor,
             TorchArgTy.bool, TorchArgTy.optTensor]
    rets := List.replicate 8 TorchArgTy.tensor }

/-- The registered schema of `ssd_generate_row_addrs`. -/
def ssd_generate_row_addrs_schema : TorchOpSchema :=
  { name := "ssd_generate_row_addrs"
    args := List.replicate 9 TorchArgTy.tensor
    rets := [TorchArgTy.tensor, TorchArgTy.tensor] }

/-- A method exposed by the `EmbeddingRocksDBWrapper` custom class: its name
and the number of arguments beyond the receiver. -/
structure MethodSig where
  name : String
  arity : Nat
deriving DecidableEq

/-- The methods registered on the `EmbeddingRocksDBWrapper` custom class in
the translation unit: `set_cuda(indices, weights, count, timestep)`,
`get_cuda(indices, weights, count)`, `compact()`, `flush()`,
`set(indices, weights, count)` and `get(indices, weights, count)`. -/
def embeddingRocksDBWrapperMethods : List MethodSig :=
  [⟨"set_cuda", 4⟩, ⟨"get_cuda", 3⟩, ⟨"compact", 0⟩,
   ⟨"flush", 0⟩, ⟨"set", 3⟩, ⟨"get", 3⟩]

/-- The storage-layer operation set as the spec words it (for comparison
with the methods the wrapper actually exposes): `get(keys, dest_buffer,
count)`, `set(keys, src_buffer, count)`, `flush()`, `compact()`. -/
def specStorageOperations : List MethodSig :=
  [⟨"get", 3⟩, ⟨"set", 3⟩, ⟨"flush", 0⟩, ⟨"compact", 0⟩]

instance keyPosLE.isTotal (batch : List Int) : IsTotal Nat (keyPosLE batch) :=
  ⟨fun i j => by
    unfold keyPosLE
    rcases lt_trichotomy (batch.getD i 0) (batch.getD j 0) with h | h | h
    · exact Or.inl (Or.inl h)
    · rcases Nat.le_total i j with hij | hij
      · exact Or.inl (Or.inr ⟨h, hij⟩)
      · exact Or.inr (Or.inr ⟨h.symm, hij⟩)
    · exact Or.inr (Or.inl h)⟩

instance keyPosLE.isTrans (batch : List Int) : IsTrans Nat (keyPosLE batch) :=
  ⟨fun i j k hij hjk => by
    unfold keyPosLE at *
    rcases hij with h1 | ⟨h1, h1'⟩ <;> rcases hjk with h2 | ⟨h2, h2'⟩
    · exact Or.inl (h1.trans h2)
    · exact Or.inl (h2 ▸ h1)
    · exact Or.inl (h1 ▸ h2)
    · exact Or.inr ⟨h1.trans h2, h1'.trans h2'⟩⟩

instance keyPosLE.isAntisymm (batch : List Int) : IsAntisymm Nat (keyPosLE batch) :=
  ⟨fun i j hij hji => by
    unfold keyPosLE at *
    rcases hij with h1 | ⟨h1, h1'⟩ <;> rcases hji with h2 | ⟨h2, h2'⟩
    · exact absurd (h1.trans h2) (lt_irrefl _)
    · exact absurd h1 (h2 ▸ lt_irrefl _)
    · exact absurd h2 (h1 ▸ lt_irrefl _)
    · exact Nat.le_antisymm h1' h2'⟩

instance victimLE.isTotal (st : CacheInput) (σ : Nat) :
    IsTotal Nat (victimLE st σ) :=
  ⟨fun w1 w2 => by
    unfold victimLE
    rcases lt_trichotomy (lruAt st (σ * st.W + w1)) (lruAt st (σ * st.W + w2))
      with h | h | h
    · exact Or.inl (Or.inl h)
    · rcases Nat.le_total w1 w2 with hw | hw
      · exact Or.inl (Or.inr ⟨h, hw⟩)
      · exact Or.inr (Or.inr ⟨h.symm, hw⟩)
    · exact Or.inr (Or.inl h)⟩

instance victimLE.isTrans (st : CacheInput) (σ : Nat) :
    IsTrans Nat (victimLE st σ) :=
  ⟨fun a b c hab hbc => by
    unfold victimLE at *
    rcases hab with h1 | ⟨h1, h1'⟩ <;> rcases hbc with h2 | ⟨h2, h2'⟩
    · exact Or.inl (h1.trans h2)
    · exact Or.inl (h2 ▸ h1)
    · exact Or.inl (h1 ▸ h2)
    · exact Or.inr ⟨h1.trans h2, h1'.trans h2'⟩⟩

instance victimLE.isAntisymm (st : CacheInput) (σ : Nat) :
    IsAntisymm Nat (victimLE st σ) :=
  ⟨fun a b hab hba => by
    unfold victimLE at *
    rcases hab with h1 | ⟨h1, h1'⟩ <;> rcases hba with h2 | ⟨h2, h2'⟩
    · exact absurd (h1.trans h2) (lt_irrefl _)
    · exact absurd h1 (h2 ▸ lt_irrefl _)
    · exact absurd h2 (h1 ▸ lt_irrefl _)
    · exact Nat.le_antisymm h1' h2'⟩

/-- A concrete materialiser input used to instantiate the hypotheses of the
address theorems: batch `[5, 3, 5]`, unique keys `[3, 5]`, key 3 cached in
slot 2, key 5 a conflict miss at scratch-pad row 1. -/
def exampleRowAddrsArgs : RowAddrsArgs :=
  { lxu_cache_locations := [-1, 2, -1]
    assigned_cache_slots := [2, -1]
    linear_index_inverse_indices := [1, 0, 2]
    unique_indices_count_cumsum := [0, 1, 3]
    cache_set_inverse_indices := [0, 1]
    cache_set_sorted_unique_indices := [3, 5]
    unique_indices_length := 2
    scratch_index := [0, 1]
    cache_base := 100
    scratch_base := 1000
    row_stride := 4
    batch_length := 3 }

/-- A concrete materialiser input matching the planner's dedup of the batch
`[3, -1, 3, -1]` (spec scenario: sentinel passthrough). -/
def exampleSentinelArgs : RowAddrsArgs :=
  { lxu_cache_locations := [-1, -1, -1, -1]
    assigned_cache_slots := [-1]
    linear_index_inverse_indices := [0, 2]
    unique_indices_count_cumsum := [0, 2]
    cache_set_inverse_indices := [0]
    cache_set_sorted_unique_indices := [3]
    unique_indices_length := 1
    scratch_index := [0]
    cache_base := 100
    scratch_base := 1000
    row_stride := 4
    batch_length := 4 }

/-- A one-slot directory whose only way is both resident (key 4) and locked
at `t = 11`, `p = 1` (last used at timestamp 10). -/
def exampleLockedHit : CacheInput :=
  ⟨1, 1, [4], [10]⟩

/-- An empty one-slot directory. -/
def exampleEmptyCache : CacheInput :=
  ⟨1, 1, [-1], [0]⟩

/-- Spec scenario 4: both ways of set 0 are resident and locked at
`t = 12`, `p = 5`. -/
def exampleLockedSet : CacheInput :=
  ⟨2, 2, [2, 4, -1, -1], [10, 11, 0, 0]⟩

theorem getD_set_ne {α : Type} (l : List α) (d : α) {x i : Nat} (v : α)
    (h : x ≠ i) : (l.set x v).getD i d = l.getD i d := by
  simp [List.getD_eq_getElem?_getD, List.getElem?_set_ne h]

theorem getD_set_self {α : Type} (l : List α) (d : α) {i : Nat} (v : α)
    (h : i < l.length) : (l.set i v).getD i d = v := by
  simp [List.getD_eq_getElem?_getD, List.getElem?_set_self h]

theorem maskedPutLoop_length (indices : List Int) (values : List (List Int)) :
    ∀ (k i : Nat) (self : List (List Int)),
      (maskedPutLoop indices values i k self).length = self.length := by
  intro k
  induction k with
  | zero => intro i self; rfl
  | succ k ih =>
    intro i self
    rw [maskedPutLoop, ih]
    split <;> simp [List.length_set]

theorem maskedPutLoop_getD_not_written (indices : List Int)
    (values : List (List Int)) (r : Nat) :
    ∀ (k i : Nat) (self : List (List Int)),
      (∀ j, i ≤ j → j < i + k →
        ¬(0 ≤ indices.getD j (-1) ∧ (indices.getD j (-1)).toNat = r)) →
      (maskedPutLoop indices values i k self).getD r [] = self.getD r [] := by
  intro k
  induction k with
  | zero => intro i self _; rfl
  | succ k ih =>
    intro i self h
    rw [maskedPutLoop]
    rw [ih _ _ (fun j hj1 hj2 => h j (Nat.le_of_succ_le hj1) (by omega))]
    split
    next hpos =>
      exact getD_set_ne _ _ _
        (fun he => h i le_rfl (by omega) ⟨hpos, he⟩)
    next => rfl

theorem maskedPutLoop_getD_written (indices : List Int)
    (values : List (List Int)) :
    ∀ (k i : Nat) (self : List (List Int)) (j : Nat),
      i ≤ j → j < i + k →
      0 ≤ indices.getD j (-1) →
      (indices.getD j (-1)).toNat < self.length →
      (∀ j', j < j' → j' < i + k →
        ¬(0 ≤ indices.getD j' (-1) ∧
          (indices.getD j' (-1)).toNat = (indices.getD j (-1)).toNat)) →
      (maskedPutLoop indices values i k self).getD
        (indices.getD j (-1)).toNat [] = values.getD j [] := by
  intro k
  induction k with
  | zero => intro i self j h1 h2; omega
  | succ k ih =>
    intro i self j h1 h2 hpos hlt hlast
    rw [maskedPutLoop]
    rcases Nat.eq_or_lt_of_le h1 with heq | hlt'
    · subst heq
      rw [maskedPutLoop_getD_not_written _ _ _ _ _ _
          (fun j' hj1 hj2 => hlast j' hj1 (by omega))]
      rw [if_pos hpos]
      exact getD_set_self _ _ _ hlt
    · have hlen : (if 0 ≤ indices.getD i (-1)
          then self.set (indices.getD i (-1)).toNat (values.getD i [])
          else self).length = self.length := by
        split <;> simp [List.length_set]
      exact ih (i + 1) _ j hlt' (by omega) hpos (hlen ▸ hlt)
        (fun j' hj1 hj2 => hlast j' hj1 (by omega))

theorem maskedSelectLoop_length (indices : List Int)
    (values : List (List Int)) :
    ∀ (k i : Nat) (self : List (List Int)),
      (maskedSelectLoop indices values i k self).length = self.length := by
  intro k
  induction k with
  | zero => intro i self; rfl
  | succ k ih =>
    intro i self
    rw [maskedSelectLoop, ih]
    split <;> simp [List.length_set]

/-- C3: `masked_index_put` copies at most `count` rows from `values` into
`self` at the row positions given by `indices`: the row count is preserved,
any row of `self` that no processed non-negative index points at is left
unchanged (in particular every position with a negative index is skipped
and consumes no row of `values`), and the row at each processed
non-negative index that is not overwritten later receives exactly the
`values` row of its position. -/
theorem masked_index_put_rows_spec (self : List (List Int))
    (indices : List Int) (values : List (List Int)) (count : Nat) :
    (masked_index_put_rows self indices values count).length = self.length ∧
    (∀ r : Nat,
      (∀ i < min count indices.length,
        ¬(0 ≤ indices.getD i (-1) ∧ (indices.getD i (-1)).toNat = r)) →
      (masked_index_put_rows self indices values count).getD r [] =
        self.getD r []) ∧
    (∀ i < min count indices.length, 0 ≤ indices.getD i (-1) →
      (indices.getD i (-1)).toNat < self.length →
      (∀ i' < min count indices.length, i < i' →
        ¬(0 ≤ indices.getD i' (-1) ∧
          (indices.getD i' (-1)).toNat = (indices.getD i (-1)).toNat)) →
      (masked_index_put_rows self indices values count).getD
        (indices.getD i (-1)).toNat [] = values.getD i []) := by
  refine ⟨maskedPutLoop_length _ _ _ _ _, ?_, ?_⟩
  · intro r h
    exact maskedPutLoop_getD_not_written _ _ _ _ _ _
      (fun j hj1 hj2 => h j (by omega))
  · intro i hi hpos hlt hlast
    exact maskedPutLoop_getD_written _ _ _ _ _ i (Nat.zero_le i) (by omega)
      hpos hlt (fun j' hj1 hj2 => hlast j' (by omega) hj1)

theorem masked_index_put_rows_spec_witness :
    (masked_index_put_rows [[0], [0], [0]] [2, -1] [[7], [8]] 2).getD 2 []
      = [7] ∧
    (masked_index_put_rows [[0], [0], [0]] [2, -1] [[7], [8]] 2).getD 1 []
      = [0] ∧
    (masked_index_put_rows [[0], [0], [0]] [2, -1] [[7], [8]] 2).length = 3 := by
  have h := masked_index_put_rows_spec [[0], [0], [0]] [2, -1] [[7], [8]] 2
  exact ⟨h.2.2 0 (by decide) (by decide) (by decide) (by decide),
    h.2.1 1 (by decide), h.1⟩

theorem maskedSelectLoop_getD (indices : List Int)
    (values : List (List Int)) (r : Nat) :
    ∀ (k i : Nat) (self : List (List Int)),
      (maskedSelectLoop indices values i k self).getD r [] =
        if i ≤ r ∧ r < i + k ∧ 0 ≤ indices.getD r (-1) ∧ r < self.length
        then values.getD (indices.getD r (-1)).toNat []
        else self.getD r [] := by
  intro k
  induction k with
  | zero =>
    intro i self
    rw [maskedSelectLoop, if_neg]
    rintro ⟨h1, h2, -⟩
    omega
  | succ k ih =>
    intro i self
    rw [maskedSelectLoop, ih]
    by_cases hr : r = i
    · subst hr
      rw [if_neg (by omega)]
      by_cases hpos : 0 ≤ indices.getD r (-1)
      · rw [if_pos hpos]
        by_cases hlen : r < self.length
        · rw [getD_set_self _ _ _ hlen, if_pos ⟨le_rfl, by omega, hpos, hlen⟩]
        · rw [List.set_eq_of_length_le (by omega),
            if_neg (by rintro ⟨-, -, -, h4⟩; omega)]
      · rw [if_neg hpos, if_neg (by rintro ⟨-, -, h3, -⟩; exact hpos h3)]
    · have hlen : (if 0 ≤ indices.getD i (-1)
          then self.set i (values.getD (indices.getD i (-1)).toNat [])
          else self).length = self.length := by
        split <;> simp [List.length_set]
      have hgd : (if 0 ≤ indices.getD i (-1)
          then self.set i (values.getD (indices.getD i (-1)).toNat [])
          else self).getD r [] = self.getD r [] := by
        split
        · exact getD_set_ne _ _ _ (fun h => hr h.symm)
        · rfl
      rw [hlen, hgd]
      exact if_congr
        (by constructor <;> (rintro ⟨h1, h2, h3, h4⟩; exact ⟨by omega, by omega, h3, h4⟩))
        rfl rfl

/-- C4: `masked_index_select` is the gather counterpart of
`masked_index_put`: for the first `count` entries of `indices`, row `i` of
`self` receives row `values[indices[i]]` whenever `indices[i] >= 0`, and is
left unchanged (skipped) whenever `indices[i] < 0` or `i` is beyond the
processed prefix; the row count is preserved. -/
theorem masked_index_select_rows_spec (self : List (List Int))
    (indices : List Int) (values : List (List Int)) (count : Nat) :
    (masked_index_select_rows self indices values count).length =
      self.length ∧
    ∀ r < self.length,
      (masked_index_select_rows self indices values count).getD r [] =
        if r < min count indices.length ∧ 0 ≤ indices.getD r (-1)
        then values.getD (indices.getD r (-1)).toNat []
        else self.getD r [] := by
  refine ⟨maskedSelectLoop_length _ _ _ _ _, ?_⟩
  intro r hr
  rw [masked_index_select_rows, maskedSelectLoop_getD]
  exact if_congr
    (by constructor
        · rintro ⟨-, h2, h3, -⟩; exact ⟨by omega, h3⟩
        · rintro ⟨h1, h2⟩; exact ⟨Nat.zero_le r, by omega, h2, hr⟩)
    rfl rfl

theorem masked_index_select_rows_spec_witness :
    (masked_index_select_rows [[0], [0]] [1, -1] [[7], [8]] 2).getD 0 []
      = [8] ∧
    (masked_index_select_rows [[0], [0]] [1, -1] [[7], [8]] 2).getD 1 []
      = [0] := by
  have h := masked_index_select_rows_spec [[0], [0]] [1, -1] [[7], [8]] 2
  constructor
  · rw [h.2 0 (by decide)]; decide
  · rw [h.2 1 (by decide)]; decide

/-- C10: `masked_index_put` and `masked_index_select` succeed exactly when
the output tensor and the indexed `values` tensor are 2D, and the result is
the mutated destination tensor itself: same shape, same row count, rows
rewritten in place. -/
theorem masked_ops_require_2d_return_self (self values : MTensor)
    (indices : List Int) (count : Nat) :
    ((masked_index_put self indices values count).isSome ↔
      (self.dims.length = 2 ∧ values.dims.length = 2)) ∧
    ((masked_index_select self indices values count).isSome ↔
      (self.dims.length = 2 ∧ values.dims.length = 2)) ∧
    (∀ r : MTensor, masked_index_put self indices values count = some r →
      r.dims = self.dims ∧ r.rows.length = self.rows.length) ∧
    (∀ r : MTensor, masked_index_select self indices values count = some r →
      r.dims = self.dims ∧ r.rows.length = self.rows.length) := by
  refine ⟨?_, ?_, ?_, ?_⟩
  · rw [masked_index_put]
    split
    next h => simp [h]
    next h => simp [h]
  · rw [masked_index_select]
    split
    next h => simp [h]
    next h => simp [h]
  · intro r hr
    rw [masked_index_put] at hr
    split at hr
    · injection hr with hr
      subst hr
      exact ⟨rfl, maskedPutLoop_length _ _ _ _ _⟩
    · exact absurd hr (by simp)
  · intro r hr
    rw [masked_index_select] at hr
    split at hr
    · injection hr with hr
      subst hr
      exact ⟨rfl, maskedSelectLoop_length _ _ _ _ _⟩
    · exact absurd hr (by simp)

theorem masked_ops_require_2d_return_self_witness :
    (masked_index_put ⟨[3, 1], [[1], [2], [3]]⟩ [0] ⟨[1, 1], [[9]]⟩ 1).isSome ∧
    (masked_index_select ⟨[3], [[1]]⟩ [0] ⟨[1, 1], [[9]]⟩ 1).isSome = false := by
  have h1 := masked_ops_require_2d_return_self ⟨[3, 1], [[1], [2], [3]]⟩
    ⟨[1, 1], [[9]]⟩ [0] 1
  have h2 := masked_ops_require_2d_return_self ⟨[3], [[1]]⟩
    ⟨[1, 1], [[9]]⟩ [0] 1
  refine ⟨h1.1.mpr (by decide), ?_⟩
  by_contra hc
  have hs : (masked_index_select ⟨[3], [[1]]⟩ [0] ⟨[1, 1], [[9]]⟩ 1).isSome := by
    revert hc
    cases (masked_index_select ⟨[3], [[1]]⟩ [0] ⟨[1, 1], [[9]]⟩ 1).isSome <;> simp
  exact absurd (h2.2.1.mp hs).1 (by decide)

theorem writeSegment_length (inv : List Nat) (addr : Int) :
    ∀ (k l : Nat) (out : List Int),
      (writeSegment inv addr l k out).length = out.length := by
  intro k
  induction k with
  | zero => intro l out; rfl
  | succ k ih => intro l out; rw [writeSegment, ih, List.length_set]

theorem writeSegment_getD_not_written (inv : List Nat) (addr : Int)
    (i : Nat) :
    ∀ (k l : Nat) (out : List Int),
      (∀ j, l ≤ j → j < l + k → inv.getD j 0 ≠ i) →
      (writeSegment inv addr l k out).getD i 0 = out.getD i 0 := by
  intro k
  induction k with
  | zero => intro l out _; rfl
  | succ k ih =>
    intro l out h
    rw [writeSegment, ih _ _ (fun j hj1 hj2 => h j (by omega) (by omega))]
    exact getD_set_ne _ _ _ (h l le_rfl (by omega))

theorem writeSegment_getD_written (inv : List Nat) (addr : Int) (i : Nat) :
    ∀ (k l : Nat) (out : List Int), i < out.length →
      (∃ j, l ≤ j ∧ j < l + k ∧ inv.getD j 0 = i) →
      (writeSegment inv addr l k out).getD i 0 = addr := by
  intro k
  induction k with
  | zero =>
    rintro l out hi ⟨j, h1, h2, h3⟩
    omega
  | succ k ih =>
    rintro l out hi ⟨j, h1, h2, h3⟩
    rw [writeSegment]
    by_cases hl : inv.getD l 0 = i
    · by_cases hrest : ∃ j', l + 1 ≤ j' ∧ j' < l + 1 + k ∧ inv.getD j' 0 = i
      · exact ih _ _ (by rw [List.length_set]; exact hi) hrest
      · rw [writeSegment_getD_not_written _ _ _ _ _ _
            (fun j' hj1 hj2 hij => hrest ⟨j', hj1, by omega, hij⟩)]
        rw [hl]
        exact getD_set_self _ _ _ hi
    · have hj : l + 1 ≤ j := by
        rcases Nat.eq_or_lt_of_le h1 with rfl | h
        · exact absurd h3 hl
        · omega
      exact ih _ _ (by rw [List.length_set]; exact hi) ⟨j, hj, by omega, h3⟩

theorem fold_applySegment_length (a : RowAddrsArgs) :
    ∀ (ns : List Nat) (out : List Int),
      (ns.foldl (applySegment a) out).length = out.length := by
  intro ns
  induction ns with
  | nil => intro out; rfl
  | cons n ns ih =>
    intro out
    rw [List.foldl_cons, ih, applySegment, writeSegment_length]

theorem fold_applySegment_not_written (a : RowAddrsArgs) (i : Nat) :
    ∀ (ns : List Nat) (out : List Int),
      (∀ n ∈ ns, ∀ j, segStart a n ≤ j → j < segEnd a n →
        a.linear_index_inverse_indices.getD j 0 ≠ i) →
      (ns.foldl (applySegment a) out).getD i 0 = out.getD i 0 := by
  intro ns
  induction ns with
  | nil => intro out _; rfl
  | cons n ns ih =>
    intro out h
    rw [List.foldl_cons, ih _ (fun n' hn' => h n' (List.mem_cons_of_mem _ hn'))]
    rw [applySegment]
    exact writeSegment_getD_not_written _ _ _ _ _ _
      (fun j hj1 hj2 => h n (List.mem_cons_self _ _) j hj1 (by omega))

theorem fold_applySegment_written (a : RowAddrsArgs) (i n : Nat)
    (hwrite : ∃ j, segStart a n ≤ j ∧ j < segEnd a n ∧
      a.linear_index_inverse_indices.getD j 0 = i) :
    ∀ (c s : Nat) (out : List Int),
      s ≤ n → n < s + c → i < out.length →
      (∀ n', s ≤ n' → n' < s + c → n' ≠ n →
        ∀ j, segStart a n' ≤ j → j < segEnd a n' →
          a.linear_index_inverse_indices.getD j 0 ≠ i) →
      ((List.range' s c).foldl (applySegment a) out).getD i 0 =
        rowAddrFor a n := by
  intro c
  induction c with
  | zero => intro s out h1 h2; omega
  | succ c ih =>
    intro s out h1 h2 hi hdisj
    rw [List.range'_succ, List.foldl_cons]
    rcases Nat.eq_or_lt_of_le h1 with rfl | hlt
    · have hfirst : (applySegment a out s).getD i 0 = rowAddrFor a s := by
        rw [applySegment]
        obtain ⟨j, hj1, hj2, hj3⟩ := hwrite
        exact writeSegment_getD_written _ _ _ _ _ _ hi ⟨j, hj1, by omega, hj3⟩
      rw [fold_applySegment_not_written a i _ _ (fun n' hn' => by
        rw [List.mem_range'] at hn'
        obtain ⟨m, hm, rfl⟩ := hn'
        exact hdisj _ (by omega) (by omega) (by omega))]
      exact hfirst
    · exact ih (s + 1) _ (by omega) (by omega)
        (by rw [applySegment, writeSegment_length]; exact hi)
        (fun n' hn1 hn2 => hdisj n' (by omega) (by omega))

/-- C1: for a lookup position `i` reached through the dedup maps from the
unique key `n` (its sorted rank `j` lies in `n`'s dedup segment and maps
back to `i`, and no other unique key's segment maps to `i`), the address
the materialiser produces at `i` is `cache_base + assigned_slots[n] *
row_stride` when the assigned slot is non-negative, and `scratch_base +
scratch_index[n] * row_stride` otherwise; the output is a pure function of
the operator inputs. -/
theorem ssd_generate_row_addrs_correct (a : RowAddrsArgs) (n j i : Nat)
    (hn : n < a.unique_indices_length)
    (hi : i < a.batch_length)
    (hj1 : segStart a n ≤ j) (hj2 : j < segEnd a n)
    (hj3 : a.linear_index_inverse_indices.getD j 0 = i)
    (hdisj : ∀ n' < a.unique_indices_length, n' ≠ n →
      ∀ j' < segEnd a n', segStart a n' ≤ j' →
        a.linear_index_inverse_indices.getD j' 0 ≠ i) :
    (ssd_generate_row_addrs a).1.getD i 0 =
      if 0 ≤ a.assigned_cache_slots.getD n (-1)
      then a.cache_base + a.assigned_cache_slots.getD n (-1) * a.row_stride
      else a.scratch_base +
        (a.scratch_index.getD n 0 : Int) * a.row_stride := by
  have key := fold_applySegment_written a i n ⟨j, hj1, hj2, hj3⟩
    a.unique_indices_length 0 (List.replicate a.batch_length 0)
    (Nat.zero_le n) (by omega)
    (by rw [List.length_replicate]; exact hi)
    (fun n' _ h2 hne j' hj1' hj2' => hdisj n' (by omega) hne j' hj2' hj1')
  rw [ssd_generate_row_addrs]
  dsimp only
  rw [List.range_eq_range', key, rowAddrFor]

theorem ssd_generate_row_addrs_correct_witness :
    (ssd_generate_row_addrs exampleRowAddrsArgs).1.getD 2 0 = 1004 := by
  have h := ssd_generate_row_addrs_correct exampleRowAddrsArgs 1 2 2
    (by decide) (by decide) (by decide) (by decide) (by decide) (by decide)
  rw [h]
  decide

/-- C2: the second output of `ssd_generate_row_addrs` — the post-backward
evicted index list — contains exactly the unique keys whose
`assigned_cache_slots` entry is `-1`, i.e. the keys served from the scratch
pad only. -/
theorem ssd_generate_row_addrs_post_backward (a : RowAddrsArgs) (k : Int)
    (hval : ∀ n < a.unique_indices_length,
      a.assigned_cache_slots.getD n (-1) = -1 ∨
      0 ≤ a.assigned_cache_slots.getD n (-1)) :
    k ∈ (ssd_generate_row_addrs a).2 ↔
      ∃ n < a.unique_indices_length,
        a.assigned_cache_slots.getD n (-1) = -1 ∧
        a.cache_set_sorted_unique_indices.getD n (-1) = k := by
  rw [ssd_generate_row_addrs]
  dsimp only
  rw [List.mem_filterMap]
  constructor
  · rintro ⟨n, hn, hf⟩
    rw [List.mem_range] at hn
    split at hf
    · exact absurd hf (by simp)
    next hneg =>
      injection hf with hf
      rcases hval n hn with h | h
      · exact ⟨n, hn, h, hf⟩
      · exact absurd h hneg
  · rintro ⟨n, hn, hslot, hkey⟩
    refine ⟨n, List.mem_range.mpr hn, ?_⟩
    rw [if_neg (by rw [hslot]; decide), hkey]

theorem ssd_generate_row_addrs_post_backward_witness :
    (5 : Int) ∈ (ssd_generate_row_addrs exampleRowAddrsArgs).2 :=
  (ssd_generate_row_addrs_post_backward exampleRowAddrsArgs 5
    (by decide)).mpr ⟨1, by decide, by decide, by decide⟩

/-- C7: a batch position holding the sentinel key `-1` is excluded from the
dedup (the sentinel never enters the unique key set, so no dedup segment of
a planner-produced map reaches the position) and the materialiser leaves
the null sentinel address `0` at that position instead of a cache or
scratch-pad address. -/
theorem sentinel_passthrough (a : RowAddrsArgs) (batch : List Int) (i : Nat)
    (hinv : a.linear_index_inverse_indices = sortedPositions batch)
    (hseg : ∀ n < a.unique_indices_length,
      segEnd a n ≤ (sortedPositions batch).length)
    (hi : i < a.batch_length)
    (hsent : batch.getD i 0 = -1) :
    (ssd_generate_row_addrs a).1.getD i 0 = 0 ∧
    (-1 : Int) ∉ uniqueKeys batch := by
  have hmem : ∀ q ∈ sortedPositions batch, batch.getD q 0 ≠ -1 := by
    intro q hq
    have : q ∈ nonSentinelPos batch :=
      ((List.perm_insertionSort _ _).mem_iff).mp hq
    have := List.mem_filter.mp this
    simpa using this.2
  constructor
  · rw [ssd_generate_row_addrs]
    dsimp only
    rw [fold_applySegment_not_written a i _ _ (fun n hn j hj1 hj2 => by
      rw [List.mem_range] at hn
      have hjlen : j < (sortedPositions batch).length :=
        lt_of_lt_of_le hj2 (hseg n hn)
      rw [hinv, List.getD_eq_getElem _ _ hjlen]
      intro hqi
      exact hmem _ (List.getElem_mem hjlen) (hqi ▸ hsent))]
    rw [List.getD_eq_getElem _ _ (by rw [List.length_replicate]; exact hi)]
    exact List.getElem_replicate _ _
  · intro hmem1
    rw [uniqueKeys, List.mem_dedup, sortedKeys, List.mem_map] at hmem1
    obtain ⟨q, hq, hq2⟩ := hmem1
    exact hmem q hq hq2

theorem sentinel_passthrough_witness :
    (ssd_generate_row_addrs exampleSentinelArgs).1.getD 1 0 = 0 :=
  (sentinel_passthrough exampleSentinelArgs [3, -1, 3, -1] 1
    (by decide) (by decide) (by decide) (by decide)).1

/-- C6 as stated is violated by hit keys: with a one-slot directory holding
key 4 last used at timestamp 10, the batch `[4]` at `t = 11`, `p = 1` gives
key 4 a non-negative assigned slot (its resident slot) whose prior state is
neither empty nor below the lock horizon `t - p = 10`. -/
theorem planner_lock_claim_counterexample :
    ¬ (∀ n < (uniqueKeys [4]).length,
        0 ≤ (assignedSlots exampleLockedHit [4] 11 1).getD n (-1) →
        (keyAt exampleLockedHit
            ((assignedSlots exampleLockedHit [4] 11 1).getD n (-1)).toNat
           = -1 ∨
         lruAt exampleLockedHit
            ((assignedSlots exampleLockedHit [4] 11 1).getD n (-1)).toNat
           < 11 - 1)) := by
  decide

/-- C6 (amended to miss-classified keys): for a unique key `k` that is not
resident, any non-negative slot the planner assigns is a way whose prior
`last_used` is strictly below the lock horizon `t - p` (so the slot was
empty or unlocked, and a locked way is never selected as an eviction
victim); and when `k`'s rank among its set's misses is beyond the unlocked
victim supply, `k` becomes a conflict miss with assigned slot `-1`, served
from the scratch pad only. -/
theorem planner_lock_respected (st : CacheInput) (batch : List Int)
    (t p : Int) (n : Nat) (k : Int)
    (hn : n < (uniqueKeys batch).length)
    (hk : (uniqueKeys batch).getD n 0 = k)
    (hmiss : lookupSlot st k = -1) :
    (0 ≤ (assignedSlots st batch t p).getD n (-1) →
      (keyAt st ((assignedSlots st batch t p).getD n (-1)).toNat = -1 ∨
       lruAt st ((assignedSlots st batch t p).getD n (-1)).toNat < t - p)) ∧
    ((victimsFor st t p (cacheSetOf st k)
        (setMisses st batch (cacheSetOf st k)).length).length ≤
      (setMisses st batch (cacheSetOf st k)).indexOf k →
      (assignedSlots st batch t p).getD n (-1) = -1) := by
  have hgd : (assignedSlots st batch t p).getD n (-1) =
      assignedSlotOf st batch t p k := by
    rw [assignedSlots, List.getD_eq_getElem _ _ (by simpa using hn),
      List.getElem_map]
    rw [← hk, List.getD_eq_getElem _ _ hn]
  rw [hgd, assignedSlotOf, if_neg (by rw [hmiss]; decide)]
  dsimp only
  split
  next hr =>
    constructor
    · intro _
      refine Or.inr ?_
      set σ := cacheSetOf st k with hσ
      set vs := victimsFor st t p σ (setMisses st batch σ).length with hvs
      set r := (setMisses st batch σ).indexOf k with hrdef
      have hw : vs.getD r 0 ∈ vs := by
        rw [List.getD_eq_getElem _ _ hr]
        exact List.getElem_mem hr
      have h1 : vs.getD r 0 ∈
          List.insertionSort (victimLE st σ) (unlockedWays st t p σ) :=
        List.mem_of_mem_take (((List.perm_insertionSort _ _).mem_iff).mp hw)
      have h2 : vs.getD r 0 ∈ unlockedWays st t p σ :=
        ((List.perm_insertionSort _ _).mem_iff).mp h1
      have h3 := (List.mem_filter.mp h2).2
      rw [Int.toNat_natCast]
      simpa using h3
    · intro h
      omega
  next hr =>
    exact ⟨fun h => absurd h (by decide), fun _ => rfl⟩

theorem planner_lock_respected_witness :
    (assignedSlots exampleLockedSet [6, 8] 12 5).getD 0 (-1) = -1 :=
  (planner_lock_respected exampleLockedSet [6, 8] 12 5 0 6
    (by decide) (by decide) (by decide)).2 (by decide)

/-- C5 as stated fails on the modelled planner: for the batch `[7, 7]` the
dedup map `linear_index_inverse_indices` has one entry per original lookup
(length 2), not one per unique key (length 1), although it is not the
per-original-lookup cache location vector. -/
theorem planner_output_sizes_counterexample :
    ¬ (((ssd_cache_populate_actions exampleEmptyCache
          [7, 7] 1 0).linear_index_inverse_indices).length =
       ((ssd_cache_populate_actions exampleEmptyCache
          [7, 7] 1 0).unique_indices).length) := by
  decide

/-- C5 (amended): the planner returns exactly eight tensors per its
registered schema; the unique key vector and `assigned_slots` are sized to
the deduplicated unique key set and the fetch list is at most that size,
while the dedup maps are sized by the non-sentinel batch positions and by
the unique count plus one, the two eviction lists have equal event-count
length, and the per-original-lookup cache location vector is sized `L`. -/
theorem planner_output_sizes (st : CacheInput) (batch : List Int)
    (t p : Int) :
    ssd_cache_populate_actions_schema.rets.length = 8 ∧
    (∀ r ∈ ssd_cache_populate_actions_schema.rets, r = TorchArgTy.tensor) ∧
    (ssd_cache_populate_actions st batch t p).unique_indices.length =
      (uniqueKeys batch).length ∧
    (ssd_cache_populate_actions st batch t p).assigned_slots.length =
      (uniqueKeys batch).length ∧
    (ssd_cache_populate_actions st batch t p).fetch_keys.length ≤
      (uniqueKeys batch).length ∧
    ((ssd_cache_populate_actions st batch
        t p).unique_indices_count_cumsum).length =
      (uniqueKeys batch).length + 1 ∧
    ((ssd_cache_populate_actions st batch
        t p).linear_index_inverse_indices).length =
      (nonSentinelPos batch).length ∧
    (ssd_cache_populate_actions st batch t p).evicted_keys.length =
      (ssd_cache_populate_actions st batch t p).evicted_slots.length ∧
    (ssd_cache_populate_actions st batch t p).lxu_cache_locations.length =
      batch.length := by
  refine ⟨rfl, by decide, rfl, ?_, ?_, ?_, ?_, ?_, ?_⟩
  · show (assignedSlots st batch t p).length = _
    rw [assignedSlots]
    exact List.length_map _ _
  · show (missKeys st batch).length ≤ _
    rw [missKeys]
    exact List.length_filter_le _ _
  · show (countCumsum batch).length = _
    rw [countCumsum, List.length_scanl, List.length_map]
  · show (sortedPositions batch).length = _
    exact (List.perm_insertionSort _ _).length_eq
  · show ((evictedPairs st batch t p).map Prod.fst).length =
      ((evictedPairs st batch t p).map Prod.snd).length
    rw [List.length_map, List.length_map]
  · show (cacheLocations st batch).length = _
    rw [cacheLocations]
    exact List.length_map _ _

theorem planner_output_sizes_witness :
    ((ssd_cache_populate_actions exampleEmptyCache
        [7, 7] 1 0).lxu_cache_locations).length = 2 ∧
    TorchArgTy.tensor = TorchArgTy.tensor := by
  have h := planner_output_sizes exampleEmptyCache [7, 7] 1 0
  exact ⟨h.2.2.2.2.2.2.2.2, h.2.1 TorchArgTy.tensor (by decide)⟩

/-- C8 as stated fails: the wrapper also registers the CUDA-stream methods
`get_cuda` and `set_cuda` (the latter with an extra `timestep` argument),
so the exposed method set is not exactly the four spec operations. -/
theorem storage_operations_counterexample :
    ¬ (∀ m ∈ embeddingRocksDBWrapperMethods, m ∈ specStorageOperations) := by
  decide

/-- C8 (amended): the wrapper exposes the spec's four storage operations
`get(keys, buffer, count)`, `set(keys, buffer, count)`, `flush()` and
`compact()` with exactly those argument lists, plus the CUDA-stream
variants `get_cuda(keys, buffer, count)` and
`set_cuda(keys, buffer, count, timestep)`, and nothing else. -/
theorem storage_operations_amended :
    (∀ m ∈ embeddingRocksDBWrapperMethods,
      m ∈ specStorageOperations ∨ m = ⟨"get_cuda", 3⟩ ∨
        m = ⟨"set_cuda", 4⟩) ∧
    (∀ m ∈ specStorageOperations, m ∈ embeddingRocksDBWrapperMethods) ∧
    (⟨"get_cuda", 3⟩ : MethodSig) ∈ embeddingRocksDBWrapperMethods ∧
    (⟨"set_cuda", 4⟩ : MethodSig) ∈ embeddingRocksDBWrapperMethods := by
  decide

theorem storage_operations_amended_witness :
    (⟨"flush", 0⟩ : MethodSig) ∈ embeddingRocksDBWrapperMethods :=
  storage_operations_amended.2.1 ⟨"flush", 0⟩ (by decide)

/-- C9: the specified tie-breaks make the planner deterministic for a fixed
directory snapshot: the dedup order (ascending key, ties by position) and
the victim order (ascending `last_used`, ties by lowest way index) are
antisymmetric total orders, so any two orderings respecting them of the
same positions or ways coincide, and the planner's sorts respect them. -/
theorem tie_break_determinism (st : CacheInput) (σ : Nat)
    (batch : List Int) (t p : Int) (ws1 ws2 pos1 pos2 : List Nat)
    (hwp : ws1.Perm ws2)
    (hws1 : List.Sorted (victimLE st σ) ws1)
    (hws2 : List.Sorted (victimLE st σ) ws2)
    (hpp : pos1.Perm pos2)
    (hps1 : List.Sorted (keyPosLE batch) pos1)
    (hps2 : List.Sorted (keyPosLE batch) pos2) :
    ws1 = ws2 ∧ pos1 = pos2 ∧
    List.Sorted (keyPosLE batch) (sortedPositions batch) ∧
    List.Sorted (victimLE st σ)
      (List.insertionSort (victimLE st σ) (unlockedWays st t p σ)) :=
  ⟨List.eq_of_perm_of_sorted hwp hws1 hws2,
   List.eq_of_perm_of_sorted hpp hps1 hps2,
   List.sorted_insertionSort _ _,
   List.sorted_insertionSort _ _⟩

theorem tie_break_determinism_witness :
    ([0, 1] : List Nat) = [0, 1] :=
  (tie_break_determinism exampleEmptyCache 0 [7, 7] 1 0 [0] [0] [0, 1]
    [0, 1] (List.Perm.refl _) (by decide) (by decide)
    (List.Perm.refl _) (by decide) (by decide)).2.1
